import Mathlib

/-!
# restval-compare: extraction and set comparison

A shallow embedding of `processor.go`, `differ.go` and `config.go`.

Conventions of the embedding.

* A decoded JSON value (`interface{}`) is a `JSONValue`.  The Go tests build values with
  `int` leaves and `encoding/json` produces `float64` leaves; both occur here.  A `float64`
  is carried by the text that `%v` prints for it, since the program uses a number only
  through that text.
* A Go map that reaches the program as data (a JSON object, a header table of the
  configuration) is the list of its entries in the order in which a `range` statement
  enumerates them.  Keys of a real map are distinct.
* A Go map that the program builds itself (`buildValueSet`) has no such order of its own:
  the `range` statement over it takes a `RangeOrder`, the order the runtime picks.
* `fmt.Sprintf("%v", x)` is `sprintV`; `sort.Strings` is `sortStrings`; the JSONPath
  library, the HTTP client, the file system and the YAML decoder are fields of `Env`.
* A slice is the list of its elements; a nil slice and an empty slice are both `[]`.
* An `error` is its message; `fmt.Errorf("...: %w", err)` puts its text before the message.
* Output written to the terminal in verbose mode does not reach any returned value and is
  left out.
-/

namespace RestvalCompare

/-! ## Strings: the order used by `sort.Strings` and by `fmt` for map keys -/

/-- Lexicographic comparison of two character sequences by code point.  Go compares the
UTF-8 bytes of two strings; UTF-8 keeps the order of code points, so both orders agree. -/
def lexLE : List Char → List Char → Bool
  | [], _ => true
  | _ :: _, [] => false
  | c :: cs, d :: ds =>
    if c.toNat < d.toNat then true
    else if d.toNat < c.toNat then false
    else lexLE cs ds

/-- The order `a <= b` on Go strings; `stringLE_iff_le` shows that it is the order of
`String`. -/
def stringLE (a b : String) : Bool := lexLE a.data b.data

/-- The relation sorted lists of strings satisfy. -/
def StrLE (a b : String) : Prop := stringLE a b = true

/-- Go `sort.Strings`: the ascending rearrangement of a slice of strings. -/
def sortStrings (values : List String) : List String :=
  values.insertionSort (fun a b => stringLE a b = true)

/-! ## JSON values and their `%v` rendering -/

/-- A decoded JSON value as the Go program sees it. -/
inductive JSONValue where
  | null
  | bool (b : Bool)
  | int (n : Int)
  | float (text : String)
  | str (s : String)
  | arr (items : List JSONValue)
  | obj (members : List (String × JSONValue))

/-- Order of two rendered map entries by key, as `fmt` sorts the keys of a map. -/
def keyLE (a b : String × String) : Prop := stringLE a.1 b.1 = true

instance keyLE_decidable : DecidableRel keyLE :=
  fun a b => inferInstanceAs (Decidable (stringLE a.1 b.1 = true))

/-- Go `strings.Join(parts, " ")`. -/
def joinSpace : List String → String
  | [] => ""
  | [s] => s
  | s :: rest => s ++ " " ++ joinSpace rest

mutual
/-- Go `fmt.Sprintf("%v", v)` for a decoded JSON value: `<nil>` for nil, a slice as
`[e1 e2 ...]`, a map as `map[k1:v1 k2:v2 ...]` with the keys in ascending order. -/
def sprintV : JSONValue → String
  | .null => "<nil>"
  | .bool b => if b then "true" else "false"
  | .int n => toString n
  | .float text => text
  | .str s => s
  | .arr items => "[" ++ joinSpace (sprintItems items) ++ "]"
  | .obj members =>
    "map[" ++ joinSpace ((List.insertionSort keyLE (sprintMembers members)).map
      (fun kv => kv.1 ++ ":" ++ kv.2)) ++ "]"
/-- The `%v` texts of the elements of a slice. -/
def sprintItems : List JSONValue → List String
  | [] => []
  | v :: rest => sprintV v :: sprintItems rest
/-- The keys of a map with the `%v` texts of their values. -/
def sprintMembers : List (String × JSONValue) → List (String × String)
  | [] => []
  | (k, v) :: rest => (k, sprintV v) :: sprintMembers rest
end

/-! ## processor.go -/

/-- Go `Processor.processMap`: one `%v` text per member value, in enumeration order. -/
def processMap (m : List (String × JSONValue)) : List String :=
  m.map (fun kv => sprintV kv.2)

mutual
/-- Go `Processor.convertToStringSlice`. -/
def convertToStringSlice : JSONValue → List String
  | .arr v => processArray v
  | .obj v => processMap v
  | .str v => [v]
  | .null => []
  | .bool b => [sprintV (.bool b)]
  | .int n => [sprintV (.int n)]
  | .float text => [sprintV (.float text)]
termination_by v => (sizeOf v, 1)
/-- Go `Processor.processArray`: the values of each item, appended in order. -/
def processArray : List JSONValue → List String
  | [] => []
  | item :: rest => processArrayItem item ++ processArray rest
termination_by arr => (sizeOf arr, 0)
/-- Go `Processor.processArrayItem`. -/
def processArrayItem : JSONValue → List String
  | .arr v => convertToStringSlice (.arr v)
  | .obj v => processMap v
  | .null => [sprintV .null]
  | .bool b => [sprintV (.bool b)]
  | .int n => [sprintV (.int n)]
  | .float text => [sprintV (.float text)]
  | .str s => [sprintV (.str s)]
termination_by item => (sizeOf item, 2)
end

/-- Go `Processor.convertNodeListToInterface`: copies the node list item by item. -/
def convertNodeListToInterface (result : List JSONValue) : List JSONValue :=
  result.foldl (fun resultInterface r => resultInterface ++ [r]) []

/-! ## config.go -/

/-- Go `EndpointSpec`. -/
structure EndpointSpec where
  URL : String
  Headers : List (String × String)
  JSONPath : String

/-- Go `GeneralConfig`. -/
structure GeneralConfig where
  Timeout : Int
  Headers : List (String × String)

/-- Go `Config`. -/
structure Config where
  General : GeneralConfig
  Endpoint1 : EndpointSpec
  Endpoint2 : EndpointSpec

/-- Go `validateConfig`: `none` is the nil error. -/
def validateConfig (config : Config) : Option String :=
  if config.Endpoint1.URL = "" then some "endpoint1 URL is required"
  else if config.Endpoint2.URL = "" then some "endpoint2 URL is required"
  else if config.Endpoint1.JSONPath = "" then some "endpoint1 JSONPath is required"
  else if config.Endpoint2.JSONPath = "" then some "endpoint2 JSONPath is required"
  else none

/-- What the program uses from outside: the JSONPath library, the HTTP client, the file
system and the YAML decoder. -/
structure Env where
  /-- Go `jsonpath.Parse`: an error text, or the parsed path, given by its `Select`. -/
  parse : String → Except String (JSONValue → List JSONValue)
  /-- The outcome of the request that `Client.FetchJSON` makes for a URL and a header table;
  the first argument is the number of requests made before this one. -/
  httpGetJSON : Nat → String → List (String × String) → Except String JSONValue
  /-- Go `os.ReadFile`. -/
  readFile : String → Except String String
  /-- Go `yaml.Unmarshal` into a `Config`. -/
  unmarshal : String → Except String Config

/-- Go `LoadConfig`. -/
def LoadConfig (env : Env) (filename : String) : Except String Config :=
  match env.readFile filename with
  | .error err => .error ("error reading file: " ++ err)
  | .ok data =>
    match env.unmarshal data with
    | .error err => .error ("error parsing YAML: " ++ err)
    | .ok config =>
      let config : Config :=
        if config.General.Timeout ≤ 0 then
          { config with General := { config.General with Timeout := 10 } }
        else config
      match validateConfig config with
      | some err => .error err
      | none => .ok config

/-! ## processor.go: extraction -/

/-- Go `Processor.ExtractValues`. -/
def ExtractValues (env : Env) (data : JSONValue) (path : String) :
    Except String (List String) :=
  match env.parse path with
  | .error err => .error ("JSONPath parse error: " ++ err)
  | .ok jp =>
    let result := jp data
    let resultInterface := convertNodeListToInterface result
    let values := convertToStringSlice (.arr resultInterface)
    .ok (sortStrings values)

/-! ## differ.go -/

/-- Go `m[k] = v` on a map with string keys. -/
def mapStore {β : Type} : List (String × β) → String → β → List (String × β)
  | [], k, v => [(k, v)]
  | (k', v') :: rest, k, v =>
    if k' = k then (k', v) :: rest else (k', v') :: mapStore rest k v

/-- Go `m[k]` on a `map[string]bool`: `false` when the key is absent. -/
def mapIndex : List (String × Bool) → String → Bool
  | [], _ => false
  | (k', v') :: rest, k => if k' = k then v' else mapIndex rest k

/-- The order in which one `range` statement enumerates the keys of a map the program has
built: some rearrangement of the keys. -/
structure RangeOrder where
  enum : List String → List String
  perm : ∀ keys, (enum keys).Perm keys

/-- Go `mergeHeaders`. -/
def mergeHeaders (general specific : List (String × String)) : List (String × String) :=
  let merged := general.foldl (fun merged kv => mapStore merged kv.1 kv.2) []
  specific.foldl (fun merged kv => mapStore merged kv.1 kv.2) merged

/-- Go `buildValueSet`. -/
def buildValueSet (values : List String) : List (String × Bool) :=
  values.foldl (fun set v => mapStore set v true) []

/-- Go `extractComparisonResults`; `order` is the order of its `range set1`. -/
def extractComparisonResults (order : RangeOrder) (set1 set2 : List (String × Bool)) :
    List String × List String :=
  (order.enum (set1.map Prod.fst)).foldl
    (fun res v => if mapIndex set2 v then (res.1 ++ [v], res.2) else (res.1, res.2 ++ [v]))
    ([], [])

/-- Go `compareValues`, returning `(matched, onlyIn1, onlyIn2)`; `order1` and `order2` are
the orders of the two `range` statements it runs. -/
def compareValues (order1 order2 : RangeOrder) (values1 values2 : List String) :
    List String × List String × List String :=
  let set1 := buildValueSet values1
  let set2 := buildValueSet values2
  let r1 := extractComparisonResults order1 set1 set2
  let r2 := extractComparisonResults order2 set2 set1
  (r1.1, r1.2, r2.2)

/-- Go `ComparisonResult`. -/
structure ComparisonResult where
  Endpoint1 : String
  Endpoint2 : String
  JSONPath1 : String
  JSONPath2 : String
  MatchedItems : List String
  OnlyIn1Items : List String
  OnlyIn2Items : List String
  IsMatch : Bool

/-- Go `Client.FetchJSON`, with the list of URLs requested so far as state. -/
def FetchJSON (env : Env) (url : String) (headers : List (String × String))
    (requested : List String) : Except String JSONValue × List String :=
  (env.httpGetJSON requested.length url headers, requested ++ [url])

/-- Go `Differ.compareEndpoints`: the result or the error, and the URLs requested. -/
def compareEndpoints (env : Env) (order1 order2 : RangeOrder) (config : Config)
    (requested : List String) : Except String ComparisonResult × List String :=
  let headers1 := mergeHeaders config.General.Headers config.Endpoint1.Headers
  let headers2 := mergeHeaders config.General.Headers config.Endpoint2.Headers
  match FetchJSON env config.Endpoint1.URL headers1 requested with
  | (.error err, requested) =>
    (.error ("error fetching data from endpoint1: " ++ err), requested)
  | (.ok data1, requested) =>
    match FetchJSON env config.Endpoint2.URL headers2 requested with
    | (.error err, requested) =>
      (.error ("error fetching data from endpoint2: " ++ err), requested)
    | (.ok data2, requested) =>
      match ExtractValues env data1 config.Endpoint1.JSONPath with
      | .error err => (.error ("error extracting values from endpoint1: " ++ err), requested)
      | .ok values1 =>
        match ExtractValues env data2 config.Endpoint2.JSONPath with
        | .error err =>
          (.error ("error extracting values from endpoint2: " ++ err), requested)
        | .ok values2 =>
          let r := compareValues order1 order2 values1 values2
          (.ok
            { Endpoint1 := config.Endpoint1.URL
              Endpoint2 := config.Endpoint2.URL
              JSONPath1 := config.Endpoint1.JSONPath
              JSONPath2 := config.Endpoint2.JSONPath
              MatchedItems := r.1
              OnlyIn1Items := r.2.1
              OnlyIn2Items := r.2.2
              IsMatch := r.2.1.length == 0 && r.2.2.length == 0 },
            requested)

/-- Go `main` after the command line is read: `LoadConfig`, then the comparison of
`Differ.RunComparison`, starting with no URL requested. -/
def main (env : Env) (order1 order2 : RangeOrder) (configFile : String) :
    Except String ComparisonResult × List String :=
  match LoadConfig env configFile with
  | .error err => (.error ("Error loading config file: " ++ err), [])
  | .ok cfg => compareEndpoints env order1 order2 cfg []

/-! ## Notions used to state the properties -/

/-- The elements of a sequence node (none for any other node). -/
def itemsOf : JSONValue → List JSONValue
  | .arr items => items
  | _ => []

/-- The members of an object node (none for any other node). -/
def membersOf : JSONValue → List (String × JSONValue)
  | .obj members => members
  | _ => []

/-- Two values are the same JSON document with the members of some object nodes enumerated
in a different order: generated by exchanging two neighbouring members (their keys differ,
as the keys of a map do), inside sequences and inside member values.  By
`reordered_of_perm` every rearrangement of the members of a map is of this kind. -/
inductive Reordered : JSONValue → JSONValue → Prop
  | refl (v : JSONValue) : Reordered v v
  | trans {a b c : JSONValue} : Reordered a b → Reordered b c → Reordered a c
  | arrCons {v v' : JSONValue} {items items' : List JSONValue} :
    Reordered v v' → Reordered (.arr items) (.arr items') →
      Reordered (.arr (v :: items)) (.arr (v' :: items'))
  | objCons {k : String} {v v' : JSONValue} {m m' : List (String × JSONValue)} :
    Reordered v v' → Reordered (.obj m) (.obj m') →
      Reordered (.obj ((k, v) :: m)) (.obj ((k, v') :: m'))
  | objSwap {a b : String × JSONValue} {m : List (String × JSONValue)} :
    a.1 ≠ b.1 → Reordered (.obj (a :: b :: m)) (.obj (b :: a :: m))

mutual
/-- The value is a non-null scalar, or a sequence of such values nested to any depth. -/
def scalarLeaves : JSONValue → Bool
  | .null => false
  | .obj _ => false
  | .arr items => scalarLeavesAll items
  | .bool _ => true
  | .int _ => true
  | .float _ => true
  | .str _ => true
/-- Every element is a non-null scalar or a nested sequence of them. -/
def scalarLeavesAll : List JSONValue → Bool
  | [] => true
  | v :: rest => scalarLeaves v && scalarLeavesAll rest
end

/-- The text of a scalar: a string is itself, a number or boolean its default text. -/
def scalarText : JSONValue → String
  | .str s => s
  | .bool b => if b then "true" else "false"
  | .int n => toString n
  | .float text => text
  | _ => ""

mutual
/-- The texts of the scalar leaves of a value, depth first and left to right: the reading
of the specification, independent of `convertToStringSlice`. -/
def leafTexts : JSONValue → List String
  | .arr items => leafTextsAll items
  | .null => []
  | .obj _ => []
  | .bool b => [scalarText (.bool b)]
  | .int n => [scalarText (.int n)]
  | .float text => [scalarText (.float text)]
  | .str s => [scalarText (.str s)]
/-- The leaf texts of the elements of a sequence, in order. -/
def leafTextsAll : List JSONValue → List String
  | [] => []
  | v :: rest => leafTexts v ++ leafTextsAll rest
end

/-! ## Concrete inputs -/

/-- A `range` that enumerates the keys in the order in which they were first stored. -/
def rangeStored : RangeOrder := ⟨fun keys => keys, fun keys => List.Perm.refl keys⟩

/-- A `range` that enumerates the keys in the opposite order. -/
def rangeReversed : RangeOrder := ⟨List.reverse, List.reverse_perm⟩

/-- What the path `$[*].title` selects: the `title` member of every element. -/
def selectTitles : JSONValue → List JSONValue
  | .arr items =>
    items.filterMap fun item =>
      match item with
      | .obj members => members.lookup "title"
      | _ => none
  | _ => []

/-- The left document of the equivalence example. -/
def leftPosts : JSONValue :=
  .arr [.obj [("id", .int 1), ("title", .str "A")], .obj [("id", .int 2), ("title", .str "B")]]

/-- The right document of the equivalence example. -/
def rightPosts : JSONValue :=
  .arr [.obj [("title", .str "B")], .obj [("title", .str "A")]]

/-- The left document with the members of its objects enumerated the other way round. -/
def leftPostsSwapped : JSONValue :=
  .arr [.obj [("title", .str "A"), ("id", .int 1)], .obj [("title", .str "B"), ("id", .int 2)]]

/-- A configuration comparing the two example documents under `$[*].title`. -/
def titlesConfig : Config where
  General := ⟨10, [("Accept", "application/json")]⟩
  Endpoint1 := ⟨"https://left.example/posts", [], "$[*].title"⟩
  Endpoint2 := ⟨"https://right.example/posts", [], "$[*].title"⟩

/-- The same configuration with a path for endpoint1 that does not parse. -/
def brokenPathConfig : Config where
  General := ⟨10, [("Accept", "application/json")]⟩
  Endpoint1 := ⟨"https://left.example/posts", [], "$[*.title"⟩
  Endpoint2 := ⟨"https://right.example/posts", [], "$[*].title"⟩

/-- An environment in which both endpoints answer with the example documents, the paths
`$[*].title` and `$[*]` (every element) parse and no other path does, and the file
`broken.yaml` holds `brokenPathConfig`, every other file `titlesConfig`. -/
def exampleEnv : Env where
  parse := fun path =>
    if path = "$[*].title" then .ok selectTitles
    else if path = "$[*]" then .ok itemsOf
    else .error "unexpected token"
  httpGetJSON := fun _ url _ =>
    if url = "https://left.example/posts" then .ok leftPosts
    else if url = "https://right.example/posts" then .ok rightPosts
    else .error "HTTP error: 404 Not Found"
  readFile := fun filename => .ok filename
  unmarshal := fun data =>
    if data = "broken.yaml" then .ok brokenPathConfig else .ok titlesConfig

/-- The environment `exampleEnv` with both endpoints unreachable. -/
def offlineEnv : Env where
  parse := exampleEnv.parse
  httpGetJSON := fun _ _ _ => .error "HTTP request error: connection refused"
  readFile := exampleEnv.readFile
  unmarshal := exampleEnv.unmarshal

theorem lexLE_total : ∀ a b : List Char, lexLE a b = true ∨ lexLE b a = true
  | [], _ => Or.inl (by simp [lexLE])
  | _ :: _, [] => Or.inr (by simp [lexLE])
  | c :: cs, d :: ds => by
    simp only [lexLE]
    rcases Nat.lt_trichotomy c.toNat d.toNat with h | h | h
    · simp [h]
    · have := lexLE_total cs ds
      simp [h, this]
    · simp [h]

theorem lexLE_trans : ∀ a b c : List Char, lexLE a b = true → lexLE b c = true → lexLE a c = true
  | [], _, _ => fun _ _ => by simp [lexLE]
  | _ :: _, [], _ => fun h _ => by simp [lexLE] at h
  | _ :: _, _ :: _, [] => fun _ h => by simp [lexLE] at h
  | x :: xs, y :: ys, z :: zs => by
    simp only [lexLE]
    intro h1 h2
    split_ifs at h1 h2 with h3 h4 h5 h6 h7 h8 <;> split_ifs <;> first
      | rfl
      | omega
      | exact lexLE_trans xs ys zs h1 h2

theorem lexLE_antisymm : ∀ a b : List Char, lexLE a b = true → lexLE b a = true → a = b
  | [], [] => fun _ _ => rfl
  | [], _ :: _ => fun _ h => by simp [lexLE] at h
  | _ :: _, [] => fun h _ => by simp [lexLE] at h
  | x :: xs, y :: ys => by
    simp only [lexLE]
    intro h1 h2
    split_ifs at h1 h2 with h3 h4 h5
    · omega
    · have hxy : x = y := by
        apply Char.ext
        apply UInt32.ext  
        show x.toNat = y.toNat
        omega
      rw [hxy, lexLE_antisymm xs ys h1 h2]

theorem stringLE_total (a b : String) : stringLE a b = true ∨ stringLE b a = true :=
  lexLE_total a.data b.data

theorem stringLE_trans {a b c : String} (h1 : stringLE a b = true) (h2 : stringLE b c = true) :
    stringLE a c = true :=
  lexLE_trans _ _ _ h1 h2

theorem stringLE_antisymm {a b : String} (h1 : stringLE a b = true) (h2 : stringLE b a = true) :
    a = b :=
  String.ext (lexLE_antisymm _ _ h1 h2)

theorem lexLE_eq_false_iff : ∀ a b : List Char, lexLE a b = false ↔ b < a
  | [], b => by
    simp [lexLE]
  | c :: cs, [] => by
    simp only [lexLE, true_iff]
    exact List.nil_lt_cons c cs
  | c :: cs, d :: ds => by
    have ih := lexLE_eq_false_iff cs ds
    have hlt : ∀ x y : Char, x < y ↔ x.toNat < y.toNat := fun x y => Iff.rfl
    simp only [lexLE]
    constructor
    · intro h
      split_ifs at h with h1 h2
      · exact List.Lex.rel ((hlt d c).2 h2)
      · have hcd : c = d := by
          apply Char.ext
          apply UInt32.ext
          show c.toNat = d.toNat
          omega
        subst hcd
        exact List.Lex.cons (ih.1 h)
    · intro h
      cases h with
      | rel hdc =>
        have := (hlt d c).1 hdc
        rw [if_neg (by omega), if_pos this]
      | cons h3 =>
        rw [if_neg (Nat.lt_irrefl _), if_neg (Nat.lt_irrefl _)]
        exact ih.2 h3

theorem stringLE_iff_le (a b : String) : stringLE a b = true ↔ a ≤ b := by
  rw [String.le_iff_toList_le, ← not_lt, ← lexLE_eq_false_iff, Bool.not_eq_false]
  rfl

/-! ## Maps built by the program -/

theorem mapStore_keys {β : Type} (k : String) (v : β) :
    ∀ m : List (String × β), (mapStore m k v).map Prod.fst =
      if k ∈ m.map Prod.fst then m.map Prod.fst else m.map Prod.fst ++ [k]
  | [] => by simp [mapStore]
  | (k', v') :: rest => by
    by_cases h : k' = k
    · simp [mapStore, h]
    · have ih := mapStore_keys k v rest
      have h' : ¬ k = k' := fun e => h e.symm
      by_cases hm : k ∈ rest.map Prod.fst
      · simp only [mapStore, h, if_false, List.map_cons, ih, hm, if_true, List.mem_cons,
          or_true]
      · simp only [mapStore, h, if_false, List.map_cons, ih, hm, List.mem_cons, h', or_self,
          List.cons_append]

theorem mapIndex_mapStore (k x : String) :
    ∀ m : List (String × Bool),
      mapIndex (mapStore m k true) x = if x = k then true else mapIndex m x
  | [] => by
    by_cases h : x = k
    · simp [mapStore, mapIndex, h]
    · have h' : ¬ k = x := fun e => h e.symm
      simp [mapStore, mapIndex, h, h']
  | (k', v') :: rest => by
    have ih := mapIndex_mapStore k x rest
    by_cases h : k' = k
    · by_cases hx : x = k
      · simp [mapStore, mapIndex, h, hx]
      · have h' : ¬ k = x := fun e => hx e.symm
        simp [mapStore, mapIndex, h, hx, h']
    · by_cases hx : x = k
      · subst hx
        simp only [mapStore, h, if_false, mapIndex, ih, if_true]
      · by_cases h3 : k' = x
        · simp [mapStore, mapIndex, h, hx, h3]
        · simp only [mapStore, h, if_false, mapIndex, h3, ih, hx]

theorem buildLoop_keys_mem (x : String) :
    ∀ (values : List String) (set : List (String × Bool)),
      x ∈ (values.foldl (fun set v => mapStore set v true) set).map Prod.fst ↔
        x ∈ set.map Prod.fst ∨ x ∈ values
  | [], set => by simp
  | v :: rest, set => by
    rw [List.foldl_cons, buildLoop_keys_mem x rest, mapStore_keys]
    by_cases h : v ∈ set.map Prod.fst
    · rw [if_pos h]
      constructor
      · rintro (h1 | h1)
        · exact Or.inl h1
        · exact Or.inr (List.mem_cons_of_mem _ h1)
      · rintro (h1 | h1)
        · exact Or.inl h1
        · rcases List.mem_cons.1 h1 with h2 | h2
          · exact Or.inl (h2 ▸ h)
          · exact Or.inr h2
    · rw [if_neg h]
      simp only [List.mem_append, List.mem_singleton, List.mem_cons]
      tauto

theorem buildLoop_keys_nodup :
    ∀ (values : List String) (set : List (String × Bool)),
      (set.map Prod.fst).Nodup →
        ((values.foldl (fun set v => mapStore set v true) set).map Prod.fst).Nodup
  | [], _ => fun h => h
  | v :: rest, set => fun h => by
    rw [List.foldl_cons]
    apply buildLoop_keys_nodup rest
    rw [mapStore_keys]
    by_cases hv : v ∈ set.map Prod.fst
    · rw [if_pos hv]; exact h
    · rw [if_neg hv]
      exact List.Nodup.append h (List.nodup_singleton v) (by simpa using hv)

theorem buildLoop_index (x : String) :
    ∀ (values : List String) (set : List (String × Bool)),
      mapIndex (values.foldl (fun set v => mapStore set v true) set) x = true ↔
        mapIndex set x = true ∨ x ∈ values
  | [], set => by simp
  | v :: rest, set => by
    rw [List.foldl_cons, buildLoop_index x rest, mapIndex_mapStore]
    by_cases h : x = v
    · simp [h]
    · simp [h]

theorem buildValueSet_keys_mem (values : List String) (x : String) :
    x ∈ (buildValueSet values).map Prod.fst ↔ x ∈ values := by
  unfold buildValueSet
  rw [buildLoop_keys_mem]
  simp

theorem buildValueSet_keys_nodup (values : List String) :
    ((buildValueSet values).map Prod.fst).Nodup :=
  buildLoop_keys_nodup values [] (by simp)

theorem buildValueSet_index (values : List String) (x : String) :
    mapIndex (buildValueSet values) x = true ↔ x ∈ values := by
  unfold buildValueSet
  rw [buildLoop_index]
  simp [mapIndex]

theorem extractLoop_eq (set2 : List (String × Bool)) :
    ∀ (keys : List String) (res : List String × List String),
      keys.foldl
          (fun res v =>
            if mapIndex set2 v then (res.1 ++ [v], res.2) else (res.1, res.2 ++ [v]))
          res =
        (res.1 ++ keys.filter (fun v => mapIndex set2 v),
          res.2 ++ keys.filter (fun v => !mapIndex set2 v))
  | [], res => by simp
  | v :: rest, res => by
    rw [List.foldl_cons, extractLoop_eq set2 rest]
    by_cases h : mapIndex set2 v = true
    · simp [h]
    · simp [h]

theorem extractComparisonResults_eq (order : RangeOrder) (set1 set2 : List (String × Bool)) :
    extractComparisonResults order set1 set2 =
      ((order.enum (set1.map Prod.fst)).filter (fun v => mapIndex set2 v),
        (order.enum (set1.map Prod.fst)).filter (fun v => !mapIndex set2 v)) := by
  unfold extractComparisonResults
  rw [extractLoop_eq]
  simp

theorem mem_common (order : RangeOrder) (values1 values2 : List String) (x : String) :
    x ∈ (extractComparisonResults order (buildValueSet values1) (buildValueSet values2)).1 ↔
      x ∈ values1 ∧ x ∈ values2 := by
  rw [extractComparisonResults_eq]
  simp only [List.mem_filter, (order.perm _).mem_iff, buildValueSet_keys_mem,
    buildValueSet_index]

theorem mem_unique (order : RangeOrder) (values1 values2 : List String) (x : String) :
    x ∈ (extractComparisonResults order (buildValueSet values1) (buildValueSet values2)).2 ↔
      x ∈ values1 ∧ x ∉ values2 := by
  rw [extractComparisonResults_eq]
  simp only [List.mem_filter, (order.perm _).mem_iff, buildValueSet_keys_mem,
    Bool.not_eq_true', ← Bool.not_eq_true, buildValueSet_index]

theorem count_common_unique (order : RangeOrder) (values1 values2 : List String)
    (x : String) :
    ((extractComparisonResults order (buildValueSet values1) (buildValueSet values2)).1 ++
      (extractComparisonResults order (buildValueSet values1) (buildValueSet values2)).2).count
        x = if x ∈ values1 then 1 else 0 := by
  rw [extractComparisonResults_eq]
  have hp := List.filter_append_perm (fun v => mapIndex (buildValueSet values2) v)
    (order.enum ((buildValueSet values1).map Prod.fst))
  rw [(hp.trans (order.perm _)).count_eq]
  by_cases h : x ∈ values1
  · rw [if_pos h]
    exact List.count_eq_one_of_mem (buildValueSet_keys_nodup values1)
      ((buildValueSet_keys_mem values1 x).2 h)
  · rw [if_neg h]
    exact List.count_eq_zero_of_not_mem (fun hm => h ((buildValueSet_keys_mem values1 x).1 hm))

/-! ## Flattening -/

theorem processArray_nil : processArray [] = [] := by
  rw [processArray]

theorem processArray_cons (item : JSONValue) (rest : List JSONValue) :
    processArray (item :: rest) = processArrayItem item ++ processArray rest := by
  rw [processArray]

theorem convertToStringSlice_arr (items : List JSONValue) :
    convertToStringSlice (.arr items) = processArray items := by
  rw [convertToStringSlice]

theorem processArrayItem_arr (items : List JSONValue) :
    processArrayItem (.arr items) = processArray items := by
  rw [processArrayItem, convertToStringSlice]

theorem processArray_append :
    ∀ front back : List JSONValue,
      processArray (front ++ back) = processArray front ++ processArray back
  | [], back => by simp [processArray_nil]
  | item :: rest, back => by
    rw [List.cons_append, processArray_cons, processArray_cons, processArray_append rest back,
      List.append_assoc]

theorem convertNodeListToInterface_loop :
    ∀ (result acc : List JSONValue),
      result.foldl (fun resultInterface r => resultInterface ++ [r]) acc = acc ++ result
  | [], acc => by simp
  | r :: rest, acc => by
    rw [List.foldl_cons, convertNodeListToInterface_loop rest]
    simp

theorem convertNodeListToInterface_eq (result : List JSONValue) :
    convertNodeListToInterface result = result := by
  unfold convertNodeListToInterface
  rw [convertNodeListToInterface_loop]
  simp

mutual
theorem processArrayItem_scalarLeaves :
    ∀ v : JSONValue, scalarLeaves v = true → processArrayItem v = leafTexts v
  | .null => fun h => by simp [scalarLeaves] at h
  | .obj _ => fun h => by simp [scalarLeaves] at h
  | .bool b => fun _ => by rw [processArrayItem]; rfl
  | .int n => fun _ => by rw [processArrayItem]; rfl
  | .float t => fun _ => by rw [processArrayItem]; rfl
  | .str s => fun _ => by rw [processArrayItem]; rfl
  | .arr items => fun h => by
    rw [processArrayItem_arr, leafTexts]
    exact processArray_scalarLeaves items (by simpa [scalarLeaves] using h)
theorem processArray_scalarLeaves :
    ∀ items : List JSONValue, scalarLeavesAll items = true →
      processArray items = leafTextsAll items
  | [] => fun _ => by rw [processArray_nil, leafTextsAll]
  | v :: rest => fun h => by
    have h' : scalarLeaves v = true ∧ scalarLeavesAll rest = true := by
      simpa [scalarLeavesAll] using h
    rw [processArray_cons, leafTextsAll, processArrayItem_scalarLeaves v h'.1,
      processArray_scalarLeaves rest h'.2]
end

theorem processArray_strings :
    ∀ texts : List String, processArray (texts.map JSONValue.str) = texts
  | [] => by simp [processArray_nil]
  | s :: rest => by
    rw [List.map_cons, processArray_cons, processArray_strings rest, processArrayItem]
    rfl

/-! ## Claims about flattening -/

/-- C5, as stated, fails: the node list holding one JSON null flattens to the single text
`<nil>`, which is not `null`, and a null value flattens to no entry at all. -/
theorem null_flattens_to_nil_text :
    convertToStringSlice (.arr [.null]) = ["<nil>"] ∧
      convertToStringSlice (.arr [.null]) ≠ ["null"] ∧
      convertToStringSlice .null = [] ∧
      convertToStringSlice .null ≠ ["null"] := by
  have h1 : convertToStringSlice (.arr [.null]) = ["<nil>"] := by
    simp only [convertToStringSlice, processArray, processArrayItem]; decide
  have h2 : convertToStringSlice .null = [] := by
    simp only [convertToStringSlice]
  refine ⟨h1, ?_, h2, ?_⟩
  · rw [h1]; decide
  · rw [h2]; decide

/-- C5, amended: a JSON null among the selected nodes contributes exactly one entry, the text
`<nil>` that `%v` prints for nil, between the entries of the nodes before it and of the
nodes after it; `ExtractValues` returns a rearrangement of these entries; and
`convertToStringSlice` applied to a null value itself yields the empty list. -/
theorem null_node_entry (env : Env) (data : JSONValue) (path : String)
    (front back : List JSONValue) :
    processArrayItem .null = ["<nil>"] ∧
      convertToStringSlice (.arr (front ++ .null :: back)) =
        convertToStringSlice (.arr front) ++ ["<nil>"] ++ convertToStringSlice (.arr back) ∧
      (∀ jp, env.parse path = .ok jp → jp data = front ++ .null :: back →
        ∃ values, ExtractValues env data path = .ok values ∧
          values.Perm (convertToStringSlice (.arr front) ++ ["<nil>"] ++
            convertToStringSlice (.arr back))) ∧
      convertToStringSlice .null = [] := by
  have hitem : processArrayItem .null = ["<nil>"] := by
    rw [processArrayItem]; rfl
  have hflat : convertToStringSlice (.arr (front ++ .null :: back)) =
      convertToStringSlice (.arr front) ++ ["<nil>"] ++ convertToStringSlice (.arr back) := by
    simp only [convertToStringSlice_arr, processArray_append, processArray_cons, hitem,
      List.append_assoc]
  refine ⟨hitem, hflat, ?_, ?_⟩
  · intro jp hp hsel
    refine ⟨sortStrings (convertToStringSlice (.arr (front ++ .null :: back))), ?_, ?_⟩
    · simp only [ExtractValues, hp, convertNodeListToInterface_eq, hsel]
    · rw [← hflat]
      exact List.perm_insertionSort _ _
  · simp only [convertToStringSlice]

/-- C6: an object node with `n` members, flattened at top level or as an element of a
sequence, gives exactly `n` entries, one per member in enumeration order, each the `%v`
text of the whole member value; a member holding an object or an array gives one text and
is not decomposed: `{"a": {"b": 1}}` gives `map[b:1]` and `{"a": [1,2]}` gives `[1 2]`. -/
theorem object_one_level (m : List (String × JSONValue)) (front back : List JSONValue) :
    convertToStringSlice (.obj m) = m.map (fun kv => sprintV kv.2) ∧
      processArrayItem (.obj m) = m.map (fun kv => sprintV kv.2) ∧
      (convertToStringSlice (.obj m)).length = m.length ∧
      (processArrayItem (.obj m)).length = m.length ∧
      convertToStringSlice (.arr (front ++ .obj m :: back)) =
        convertToStringSlice (.arr front) ++ m.map (fun kv => sprintV kv.2) ++
          convertToStringSlice (.arr back) ∧
      convertToStringSlice (.obj [("a", .obj [("b", .int 1)])]) = ["map[b:1]"] ∧
      convertToStringSlice (.obj [("a", .arr [.int 1, .int 2])]) = ["[1 2]"] ∧
      convertToStringSlice (.arr [.obj [("a", .obj [("b", .int 1)])]]) = ["map[b:1]"] ∧
      convertToStringSlice (.arr [.obj [("a", .arr [.int 1, .int 2])]]) = ["[1 2]"] := by
  have h1 : convertToStringSlice (.obj m) = m.map (fun kv => sprintV kv.2) := by
    rw [convertToStringSlice]; rfl
  have h2 : processArrayItem (.obj m) = m.map (fun kv => sprintV kv.2) := by
    rw [processArrayItem]; rfl
  refine ⟨h1, h2, ?_, ?_, ?_, ?_, ?_, ?_, ?_⟩
  · rw [h1, List.length_map]
  · rw [h2, List.length_map]
  · simp only [convertToStringSlice_arr, processArray_append, processArray_cons, h2,
      List.append_assoc]
  · simp only [convertToStringSlice, processMap]; decide
  · simp only [convertToStringSlice, processMap]; decide
  · simp only [convertToStringSlice, processArray, processArrayItem, processMap]; decide
  · simp only [convertToStringSlice, processArray, processArrayItem, processMap]; decide

/-- C7: for every sequence `S` of JSON values, flattening the one-element sequence `[S]`
gives exactly the list that flattening `S` gives. -/
theorem flatten_wrapped_sequence (S : List JSONValue) :
    convertToStringSlice (.arr [.arr S]) = convertToStringSlice (.arr S) := by
  rw [convertToStringSlice_arr, processArray_cons, processArray_nil, List.append_nil,
    processArrayItem]

/-- C8: for a sequence whose leaves are non-null scalars nested through sequences to any
depth, `convertToStringSlice` returns the texts of the leaves depth first and left to right,
strings as themselves; a flat list of strings is returned unchanged. -/
theorem flatten_scalar_leaves (items : List JSONValue) (texts : List String)
    (h : scalarLeavesAll items = true) :
    convertToStringSlice (.arr items) = leafTextsAll items ∧
      convertToStringSlice (.arr (texts.map JSONValue.str)) = texts := by
  rw [convertToStringSlice_arr, convertToStringSlice_arr]
  exact ⟨processArray_scalarLeaves items h, processArray_strings texts⟩

/-- C8 at the inputs of the tests and of the specification. -/
theorem flatten_scalar_leaves_examples :
    convertToStringSlice (.arr [.str "title1", .str "title2", .str "title3"]) =
        ["title1", "title2", "title3"] ∧
      convertToStringSlice (.arr [.arr [.str "nested1", .str "nested2"], .str "single"]) =
        ["nested1", "nested2", "single"] ∧
      convertToStringSlice (.arr [.arr [.int 1, .int 2], .arr [.int 3]]) = ["1", "2", "3"] :=
  ⟨(flatten_scalar_leaves [] ["title1", "title2", "title3"] (by decide)).2,
    (flatten_scalar_leaves [.arr [.str "nested1", .str "nested2"], .str "single"] []
      (by decide)).1.trans (by decide),
    (flatten_scalar_leaves [.arr [.int 1, .int 2], .arr [.int 3]] [] (by decide)).1.trans
      (by decide)⟩

/-! ## Claims about the set comparison -/

theorem compareValues_fst (order1 order2 : RangeOrder) (values1 values2 : List String) :
    (compareValues order1 order2 values1 values2).1 =
      (extractComparisonResults order1 (buildValueSet values1) (buildValueSet values2)).1 :=
  rfl

theorem compareValues_snd_fst (order1 order2 : RangeOrder) (values1 values2 : List String) :
    (compareValues order1 order2 values1 values2).2.1 =
      (extractComparisonResults order1 (buildValueSet values1) (buildValueSet values2)).2 :=
  rfl

theorem compareValues_snd_snd (order1 order2 : RangeOrder) (values1 values2 : List String) :
    (compareValues order1 order2 values1 values2).2.2 =
      (extractComparisonResults order2 (buildValueSet values2) (buildValueSet values1)).2 :=
  rfl

theorem count_common_symm (order1 order2 : RangeOrder) (values1 values2 : List String)
    (x : String) :
    (extractComparisonResults order1 (buildValueSet values1) (buildValueSet values2)).1.count x =
      (extractComparisonResults order2 (buildValueSet values2) (buildValueSet values1)).1.count
        x := by
  have hcount : ∀ (order : RangeOrder) (v w : List String),
      (extractComparisonResults order (buildValueSet v) (buildValueSet w)).1.count x =
        if x ∈ v ∧ x ∈ w then 1 else 0 := by
    intro order v w
    have hnd : (extractComparisonResults order (buildValueSet v) (buildValueSet w)).1.Nodup := by
      rw [extractComparisonResults_eq]
      exact ((order.perm _).nodup_iff.2 (buildValueSet_keys_nodup v)).filter _
    by_cases h : x ∈ v ∧ x ∈ w
    · rw [if_pos h]
      exact List.count_eq_one_of_mem hnd ((mem_common order v w x).2 h)
    · rw [if_neg h]
      exact List.count_eq_zero_of_not_mem (fun hm => h ((mem_common order v w x).1 hm))
  rw [hcount, hcount]
  by_cases h : x ∈ values1 ∧ x ∈ values2
  · rw [if_pos h, if_pos ⟨h.2, h.1⟩]
  · rw [if_neg h, if_neg (fun h' => h ⟨h'.2, h'.1⟩)]

/-- C1: whatever order the two `range` statements take, `compareValues` returns lists
`(matched, onlyIn1, onlyIn2)` with: `x` in `matched` iff `x` occurs in both inputs, `x` in
`onlyIn1` iff `x` occurs in `values1` and not in `values2`, `x` in `onlyIn2` iff `x` occurs
in `values2` and not in `values1`; and `["A","B"]` against `["B","C"]` gives `["B"]`,
`["A"]`, `["C"]`. -/
theorem compareValues_membership (order1 order2 : RangeOrder) :
    (∀ (values1 values2 : List String) (x : String),
      (x ∈ (compareValues order1 order2 values1 values2).1 ↔ x ∈ values1 ∧ x ∈ values2) ∧
        (x ∈ (compareValues order1 order2 values1 values2).2.1 ↔
          x ∈ values1 ∧ x ∉ values2) ∧
        (x ∈ (compareValues order1 order2 values1 values2).2.2 ↔
          x ∈ values2 ∧ x ∉ values1)) ∧
      compareValues order1 order2 ["A", "B"] ["B", "C"] = (["B"], ["A"], ["C"]) := by
  have hall : ∀ (values1 values2 : List String) (x : String),
      (x ∈ (compareValues order1 order2 values1 values2).1 ↔ x ∈ values1 ∧ x ∈ values2) ∧
        (x ∈ (compareValues order1 order2 values1 values2).2.1 ↔
          x ∈ values1 ∧ x ∉ values2) ∧
        (x ∈ (compareValues order1 order2 values1 values2).2.2 ↔
          x ∈ values2 ∧ x ∉ values1) := by
    intro values1 values2 x
    rw [compareValues_fst, compareValues_snd_fst, compareValues_snd_snd]
    exact ⟨mem_common order1 values1 values2 x, mem_unique order1 values1 values2 x,
      mem_unique order2 values2 values1 x⟩
  refine ⟨hall, ?_⟩
  have hsingle : ∀ (order : RangeOrder) (set1 set2 : List (String × Bool)) (a b : String),
      (set1.map Prod.fst).filter (fun v => mapIndex set2 v) = [a] →
      (set1.map Prod.fst).filter (fun v => !mapIndex set2 v) = [b] →
      extractComparisonResults order set1 set2 = ([a], [b]) := by
    intro order set1 set2 a b ha hb
    rw [extractComparisonResults_eq]
    have h1 := ((order.perm (set1.map Prod.fst)).filter (fun v => mapIndex set2 v))
    have h2 := ((order.perm (set1.map Prod.fst)).filter (fun v => !mapIndex set2 v))
    rw [ha] at h1
    rw [hb] at h2
    rw [List.perm_singleton.1 h1, List.perm_singleton.1 h2]
  have e1 := hsingle order1 (buildValueSet ["A", "B"]) (buildValueSet ["B", "C"]) "B" "A"
    (by decide) (by decide)
  have e2 := hsingle order2 (buildValueSet ["B", "C"]) (buildValueSet ["A", "B"]) "B" "C"
    (by decide) (by decide)
  show ((extractComparisonResults order1 (buildValueSet ["A", "B"])
      (buildValueSet ["B", "C"])).1,
    (extractComparisonResults order1 (buildValueSet ["A", "B"]) (buildValueSet ["B", "C"])).2,
    (extractComparisonResults order2 (buildValueSet ["B", "C"])
      (buildValueSet ["A", "B"])).2) = _
  rw [e1, e2]

/-- C2: whatever order the two `range` statements take and however often a value is
repeated in an input, a value occurs once in `matched ++ onlyIn1` when it occurs in
`values1` and not at all otherwise, once in `matched ++ onlyIn2` when it occurs in `values2`
and not at all otherwise, never in both `onlyIn1` and `onlyIn2`, and the three lists hold
no value that occurs in neither input. -/
theorem compareValues_partition (order1 order2 : RangeOrder) (values1 values2 : List String)
    (x : String) :
    ((compareValues order1 order2 values1 values2).1 ++
        (compareValues order1 order2 values1 values2).2.1).count x =
          (if x ∈ values1 then 1 else 0) ∧
      ((compareValues order1 order2 values1 values2).1 ++
        (compareValues order1 order2 values1 values2).2.2).count x =
          (if x ∈ values2 then 1 else 0) ∧
      ¬ (x ∈ (compareValues order1 order2 values1 values2).2.1 ∧
        x ∈ (compareValues order1 order2 values1 values2).2.2) ∧
      ((x ∈ (compareValues order1 order2 values1 values2).1 ∨
          x ∈ (compareValues order1 order2 values1 values2).2.1 ∨
          x ∈ (compareValues order1 order2 values1 values2).2.2) →
        x ∈ values1 ∨ x ∈ values2) := by
  rw [compareValues_fst, compareValues_snd_fst, compareValues_snd_snd]
  refine ⟨count_common_unique order1 values1 values2 x, ?_, ?_, ?_⟩
  · rw [List.count_append, count_common_symm order1 order2 values1 values2 x,
      ← List.count_append]
    exact count_common_unique order2 values2 values1 x
  · rintro ⟨h1, h2⟩
    exact ((mem_unique order1 values1 values2 x).1 h1).2
      ((mem_unique order2 values2 values1 x).1 h2).1
  · rintro (h | h | h)
    · exact Or.inl ((mem_common order1 values1 values2 x).1 h).1
    · exact Or.inl ((mem_unique order1 values1 values2 x).1 h).1
    · exact Or.inr ((mem_unique order2 values2 values1 x).1 h).1

/-! ## Sorting -/

theorem sortStrings_perm (values : List String) : (sortStrings values).Perm values :=
  List.perm_insertionSort _ values

theorem sortStrings_sorted (values : List String) : (sortStrings values).Sorted StrLE := by
  haveI : IsTotal String (fun a b => stringLE a b = true) := ⟨stringLE_total⟩
  haveI : IsTrans String (fun a b => stringLE a b = true) := ⟨fun _ _ _ => stringLE_trans⟩
  exact List.sorted_insertionSort (fun a b => stringLE a b = true) values

theorem sortStrings_eq_of_perm {l₁ l₂ : List String} (h : l₁.Perm l₂) :
    sortStrings l₁ = sortStrings l₂ := by
  haveI : IsAntisymm String StrLE := ⟨fun _ _ => stringLE_antisymm⟩
  exact List.eq_of_perm_of_sorted
    (((sortStrings_perm l₁).trans h).trans (sortStrings_perm l₂).symm)
    (sortStrings_sorted l₁) (sortStrings_sorted l₂)

theorem orderedInsert_keyLE_comm (a b : String × String) (hab : a.1 ≠ b.1) :
    ∀ l : List (String × String),
      List.orderedInsert keyLE a (List.orderedInsert keyLE b l) =
        List.orderedInsert keyLE b (List.orderedInsert keyLE a l)
  | [] => by
    have hnot : ¬ (keyLE a b ∧ keyLE b a) := fun h => hab (stringLE_antisymm h.1 h.2)
    have htot : keyLE a b ∨ keyLE b a := stringLE_total a.1 b.1
    by_cases h1 : keyLE a b
    · have h2 : ¬ keyLE b a := fun h => hnot ⟨h1, h⟩
      simp [List.orderedInsert, h1, h2]
    · have h2 : keyLE b a := htot.resolve_left h1
      simp [List.orderedInsert, h1, h2]
  | c :: l => by
    have ih := orderedInsert_keyLE_comm a b hab l
    have hnot : ¬ (keyLE a b ∧ keyLE b a) := fun h => hab (stringLE_antisymm h.1 h.2)
    have htot : keyLE a b ∨ keyLE b a := stringLE_total a.1 b.1
    have htr : ∀ {x y z : String × String}, keyLE x y → keyLE y z → keyLE x z :=
      fun h1 h2 => stringLE_trans h1 h2
    by_cases hac : keyLE a c <;> by_cases hbc : keyLE b c
    · by_cases h1 : keyLE a b
      · have h2 : ¬ keyLE b a := fun h => hnot ⟨h1, h⟩
        simp [List.orderedInsert, hac, hbc, h1, h2]
      · have h2 : keyLE b a := htot.resolve_left h1
        simp [List.orderedInsert, hac, hbc, h1, h2]
    · have h2 : ¬ keyLE b a := fun h => hbc (htr h hac)
      simp [List.orderedInsert, hac, hbc, h2]
    · have h1 : ¬ keyLE a b := fun h => hac (htr h hbc)
      simp [List.orderedInsert, hac, hbc, h1]
    · simp [List.orderedInsert, hac, hbc, ih]

/-! ## Enumeration order of object members -/

theorem sprintV_arr (items : List JSONValue) :
    sprintV (.arr items) = "[" ++ joinSpace (sprintItems items) ++ "]" := by
  rw [sprintV]

theorem sprintV_obj (m : List (String × JSONValue)) :
    sprintV (.obj m) =
      "map[" ++ joinSpace ((List.insertionSort keyLE (sprintMembers m)).map
        (fun kv => kv.1 ++ ":" ++ kv.2)) ++ "]" := by
  rw [sprintV]

theorem sprintItems_cons (v : JSONValue) (rest : List JSONValue) :
    sprintItems (v :: rest) = sprintV v :: sprintItems rest := by
  rw [sprintItems]

theorem sprintMembers_cons (k : String) (v : JSONValue) (rest : List (String × JSONValue)) :
    sprintMembers ((k, v) :: rest) = (k, sprintV v) :: sprintMembers rest := by
  rw [sprintMembers]

theorem processArrayItem_obj (m : List (String × JSONValue)) :
    processArrayItem (.obj m) = processMap m := by
  rw [processArrayItem]

theorem convertToStringSlice_obj (m : List (String × JSONValue)) :
    convertToStringSlice (.obj m) = processMap m := by
  rw [convertToStringSlice]

theorem reordered_invariants {a b : JSONValue} (h : Reordered a b) :
    sprintV a = sprintV b ∧
      sprintItems (itemsOf a) = sprintItems (itemsOf b) ∧
      List.insertionSort keyLE (sprintMembers (membersOf a)) =
        List.insertionSort keyLE (sprintMembers (membersOf b)) ∧
      (processArrayItem a).Perm (processArrayItem b) ∧
      (convertToStringSlice a).Perm (convertToStringSlice b) := by
  induction h with
  | refl v => exact ⟨rfl, rfl, rfl, List.Perm.refl _, List.Perm.refl _⟩
  | trans _ _ ih1 ih2 =>
    exact ⟨ih1.1.trans ih2.1, ih1.2.1.trans ih2.2.1, ih1.2.2.1.trans ih2.2.2.1,
      ih1.2.2.2.1.trans ih2.2.2.2.1, ih1.2.2.2.2.trans ih2.2.2.2.2⟩
  | @arrCons v v' items items' _ _ ih1 ih2 =>
    have hitems : sprintItems (v :: items) = sprintItems (v' :: items') := by
      have h2 : sprintItems items = sprintItems items' := ih2.2.1
      rw [sprintItems_cons, sprintItems_cons, ih1.1, h2]
    have hperm : (processArray (v :: items)).Perm (processArray (v' :: items')) := by
      have h5 := ih2.2.2.2.2
      rw [convertToStringSlice_arr, convertToStringSlice_arr] at h5
      rw [processArray_cons, processArray_cons]
      exact ih1.2.2.2.1.append h5
    refine ⟨?_, hitems, rfl, ?_, ?_⟩
    · rw [sprintV_arr, sprintV_arr, hitems]
    · rw [processArrayItem_arr, processArrayItem_arr]; exact hperm
    · rw [convertToStringSlice_arr, convertToStringSlice_arr]; exact hperm
  | @objCons k v v' m m' _ _ ih1 ih2 =>
    have hsorted : List.insertionSort keyLE (sprintMembers ((k, v) :: m)) =
        List.insertionSort keyLE (sprintMembers ((k, v') :: m')) := by
      have h3 : List.insertionSort keyLE (sprintMembers m) =
          List.insertionSort keyLE (sprintMembers m') := ih2.2.2.1
      rw [sprintMembers_cons, sprintMembers_cons, List.insertionSort, List.insertionSort,
        ih1.1, h3]
    have hperm : (processMap ((k, v) :: m)).Perm (processMap ((k, v') :: m')) := by
      have h4 := ih2.2.2.2.1
      rw [processArrayItem_obj, processArrayItem_obj] at h4
      show (sprintV v :: processMap m).Perm (sprintV v' :: processMap m')
      rw [ih1.1]
      exact h4.cons _
    refine ⟨?_, rfl, hsorted, ?_, ?_⟩
    · rw [sprintV_obj, sprintV_obj, hsorted]
    · rw [processArrayItem_obj, processArrayItem_obj]; exact hperm
    · rw [convertToStringSlice_obj, convertToStringSlice_obj]; exact hperm
  | @objSwap a b m hab =>
    obtain ⟨ka, va⟩ := a
    obtain ⟨kb, vb⟩ := b
    have hsorted : List.insertionSort keyLE (sprintMembers ((ka, va) :: (kb, vb) :: m)) =
        List.insertionSort keyLE (sprintMembers ((kb, vb) :: (ka, va) :: m)) := by
      simp only [sprintMembers_cons, List.insertionSort]
      exact orderedInsert_keyLE_comm (ka, sprintV va) (kb, sprintV vb) hab _
    have hperm : (processMap ((ka, va) :: (kb, vb) :: m)).Perm
        (processMap ((kb, vb) :: (ka, va) :: m)) := List.Perm.swap _ _ _
    refine ⟨?_, rfl, hsorted, ?_, ?_⟩
    · rw [sprintV_obj, sprintV_obj, hsorted]
    · rw [processArrayItem_obj, processArrayItem_obj]; exact hperm
    · rw [convertToStringSlice_obj, convertToStringSlice_obj]; exact hperm

theorem reordered_of_perm {m m' : List (String × JSONValue)} (h : m.Perm m') :
    (m.map Prod.fst).Nodup → Reordered (.obj m) (.obj m') := by
  induction h with
  | nil => exact fun _ => Reordered.refl _
  | @cons a l l' _ ih =>
    intro hnd
    obtain ⟨k, v⟩ := a
    exact Reordered.objCons (Reordered.refl v) (ih (List.nodup_cons.1 hnd).2)
  | swap a b l =>
    intro hnd
    refine Reordered.objSwap ?_
    have h1 := (List.nodup_cons.1 hnd).1
    intro hab
    exact h1 (by simp [hab])
  | @trans l₁ l₂ l₃ h12 _ ih1 ih2 =>
    intro hnd
    exact Reordered.trans (ih1 hnd) (ih2 (((h12.map Prod.fst).nodup_iff).1 hnd))

/-! ## Claims about extraction and the comparison of two endpoints -/

theorem ExtractValues_ok (env : Env) (data : JSONValue) (path : String)
    (jp : JSONValue → List JSONValue) (hp : env.parse path = .ok jp) :
    ExtractValues env data path = .ok (sortStrings (convertToStringSlice (.arr (jp data)))) := by
  simp only [ExtractValues, hp, convertNodeListToInterface_eq]

theorem ExtractValues_error (env : Env) (data : JSONValue) (path err : String)
    (hp : env.parse path = .error err) :
    ExtractValues env data path = .error ("JSONPath parse error: " ++ err) := by
  simp only [ExtractValues, hp]

/-- C9: when the path parses, `ExtractValues` returns a sequence that is sorted in ascending
order and is a rearrangement of `convertToStringSlice` of the selected node list, so of the
same length; and it returns the same sequence for a node list that differs only in the order
in which the members of its object nodes are enumerated. -/
theorem ExtractValues_sorted_perm (env : Env) (data data' : JSONValue) (path path' : String)
    (jp jp' : JSONValue → List JSONValue)
    (hp : env.parse path = .ok jp) (hp' : env.parse path' = .ok jp')
    (hre : Reordered (.arr (jp data)) (.arr (jp' data'))) :
    ∃ values, ExtractValues env data path = .ok values ∧
      values.Sorted StrLE ∧
      values.Perm (convertToStringSlice (.arr (jp data))) ∧
      values.length = (convertToStringSlice (.arr (jp data))).length ∧
      ExtractValues env data' path' = .ok values := by
  refine ⟨sortStrings (convertToStringSlice (.arr (jp data))), ExtractValues_ok env data path jp hp,
    sortStrings_sorted _, sortStrings_perm _, (sortStrings_perm _).length_eq, ?_⟩
  rw [ExtractValues_ok env data' path' jp' hp',
    sortStrings_eq_of_perm (reordered_invariants hre).2.2.2.2]

/-- C9 at the example documents: every element of `leftPosts` selected, once with the
members of each object enumerated as written and once the other way round. -/
theorem ExtractValues_sorted_perm_example :
    ∃ values, ExtractValues exampleEnv leftPosts "$[*]" = .ok values ∧
      values.Sorted StrLE ∧
      values.Perm (convertToStringSlice (.arr (itemsOf leftPosts))) ∧
      values.length = (convertToStringSlice (.arr (itemsOf leftPosts))).length ∧
      ExtractValues exampleEnv leftPostsSwapped "$[*]" = .ok values :=
  ExtractValues_sorted_perm exampleEnv leftPosts leftPostsSwapped "$[*]" "$[*]" itemsOf itemsOf
    rfl rfl
    (Reordered.arrCons (Reordered.objSwap (by decide))
      (Reordered.arrCons (Reordered.objSwap (by decide)) (Reordered.refl _)))

/-- The texts of the example: the elements of `leftPosts` flatten and sort to the same
sequence whichever way the members are enumerated, and its titles to `A`, `B`. -/
theorem ExtractValues_examples :
    ExtractValues exampleEnv leftPosts "$[*]" = .ok ["1", "2", "A", "B"] ∧
      ExtractValues exampleEnv leftPostsSwapped "$[*]" = .ok ["1", "2", "A", "B"] ∧
      ExtractValues exampleEnv leftPosts "$[*].title" = .ok ["A", "B"] ∧
      ExtractValues exampleEnv rightPosts "$[*].title" = .ok ["A", "B"] := by
  refine ⟨?_, ?_, ?_, ?_⟩
  · rw [ExtractValues_ok exampleEnv leftPosts "$[*]" itemsOf rfl]
    simp only [itemsOf, leftPosts, convertToStringSlice, processArray, processArrayItem,
      processMap]
    exact congrArg _ (by decide)
  · rw [ExtractValues_ok exampleEnv leftPostsSwapped "$[*]" itemsOf rfl]
    simp only [itemsOf, leftPostsSwapped, convertToStringSlice, processArray, processArrayItem,
      processMap]
    exact congrArg _ (by decide)
  · rw [ExtractValues_ok exampleEnv leftPosts "$[*].title" selectTitles rfl]
    have hsel : selectTitles leftPosts = [.str "A", .str "B"] := rfl
    rw [hsel]
    simp only [convertToStringSlice, processArray, processArrayItem]
    exact congrArg _ (by decide)
  · rw [ExtractValues_ok exampleEnv rightPosts "$[*].title" selectTitles rfl]
    have hsel : selectTitles rightPosts = [.str "B", .str "A"] := rfl
    rw [hsel]
    simp only [convertToStringSlice, processArray, processArrayItem]
    exact congrArg _ (by decide)

theorem isMatch_flag_iff (order1 order2 : RangeOrder) (values1 values2 : List String) :
    (((compareValues order1 order2 values1 values2).2.1.length == 0 &&
        (compareValues order1 order2 values1 values2).2.2.length == 0) = true) ↔
      ∀ x, x ∈ values1 ↔ x ∈ values2 := by
  rw [compareValues_snd_fst, compareValues_snd_snd]
  simp only [Bool.and_eq_true, beq_iff_eq, List.length_eq_zero, List.eq_nil_iff_forall_not_mem,
    mem_unique, not_and, not_not]
  constructor
  · rintro ⟨h1, h2⟩ x
    exact ⟨h1 x, h2 x⟩
  · intro h
    exact ⟨fun x => (h x).1, fun x => (h x).2⟩

/-- C3: when both fetches and both extractions succeed, with flattened sequences `values1`
and `values2`, `compareEndpoints` returns the lists of `compareValues` and the flag
`len(OnlyIn1Items) == 0 && len(OnlyIn2Items) == 0`, and this flag is true exactly when the
two sequences hold the same values, whatever their order and multiplicity; the same holds
of the flag for any two sequences, and `["A","B"]` against `["B","A"]` is a match whose
matched values are `A` and `B`. -/
theorem compareEndpoints_isMatch (env : Env) (order1 order2 : RangeOrder) (config : Config)
    (requested : List String) (data1 data2 : JSONValue) (values1 values2 : List String)
    (hf1 : env.httpGetJSON requested.length config.Endpoint1.URL
      (mergeHeaders config.General.Headers config.Endpoint1.Headers) = .ok data1)
    (hf2 : env.httpGetJSON (requested ++ [config.Endpoint1.URL]).length config.Endpoint2.URL
      (mergeHeaders config.General.Headers config.Endpoint2.Headers) = .ok data2)
    (he1 : ExtractValues env data1 config.Endpoint1.JSONPath = .ok values1)
    (he2 : ExtractValues env data2 config.Endpoint2.JSONPath = .ok values2) :
    (∃ r, (compareEndpoints env order1 order2 config requested).1 = .ok r ∧
      (r.MatchedItems, r.OnlyIn1Items, r.OnlyIn2Items) =
        compareValues order1 order2 values1 values2 ∧
      r.IsMatch = (r.OnlyIn1Items.length == 0 && r.OnlyIn2Items.length == 0) ∧
      (r.IsMatch = true ↔ ∀ x, x ∈ values1 ↔ x ∈ values2)) ∧
    (∀ w1 w2 : List String,
      (((compareValues order1 order2 w1 w2).2.1.length == 0 &&
        (compareValues order1 order2 w1 w2).2.2.length == 0) = true) ↔
          ∀ x, x ∈ w1 ↔ x ∈ w2) ∧
    (((compareValues order1 order2 ["A", "B"] ["B", "A"]).2.1.length == 0 &&
        (compareValues order1 order2 ["A", "B"] ["B", "A"]).2.2.length == 0) = true) ∧
    (compareValues order1 order2 ["A", "B"] ["B", "A"]).1.Perm ["A", "B"] := by
  refine ⟨?_, isMatch_flag_iff order1 order2, ?_, ?_⟩
  · simp only [compareEndpoints, FetchJSON, hf1, hf2, he1, he2]
    exact ⟨_, rfl, rfl, rfl, isMatch_flag_iff order1 order2 values1 values2⟩
  · rw [isMatch_flag_iff]
    intro x
    simp only [List.mem_cons, List.mem_singleton, List.not_mem_nil, or_false]
    exact Or.comm
  · rw [compareValues_fst, extractComparisonResults_eq]
    exact (order1.perm _).filter _

/-- C3 at the equivalence example of the specification: the titles of `leftPosts` against
the titles of `rightPosts`. -/
theorem compareEndpoints_isMatch_example :
    (∃ r, (compareEndpoints exampleEnv rangeReversed rangeStored titlesConfig []).1 = .ok r ∧
      (r.MatchedItems, r.OnlyIn1Items, r.OnlyIn2Items) =
        compareValues rangeReversed rangeStored ["A", "B"] ["A", "B"] ∧
      r.IsMatch = (r.OnlyIn1Items.length == 0 && r.OnlyIn2Items.length == 0) ∧
      (r.IsMatch = true ↔ ∀ x, x ∈ ["A", "B"] ↔ x ∈ ["A", "B"])) :=
  (compareEndpoints_isMatch exampleEnv rangeReversed rangeStored titlesConfig [] leftPosts
    rightPosts ["A", "B"] ["A", "B"] rfl rfl ExtractValues_examples.2.2.1
    ExtractValues_examples.2.2.2).1

/-- C4 fails on the code: with the values `A`, `B` on both sides, a `range` that enumerates
the value set as stored gives `matched = ["A","B"]`, a `range` that enumerates it the other
way round gives `matched = ["B","A"]`, which is not in ascending order; the same happens to
`onlyIn1`. -/
theorem compareValues_order_follows_range :
    compareValues rangeStored rangeStored ["A", "B"] ["A", "B"] = (["A", "B"], [], []) ∧
      compareValues rangeReversed rangeStored ["A", "B"] ["A", "B"] = (["B", "A"], [], []) ∧
      compareValues rangeReversed rangeStored ["A", "B"] [] = ([], ["B", "A"], []) ∧
      ¬ (["B", "A"] : List String).Sorted StrLE := by
  refine ⟨by decide, by decide, by decide, ?_⟩
  intro h
  have h' : stringLE "B" "A" = true := List.rel_of_sorted_cons h "A" (by simp)
  exact absurd h' (by decide)

/-- C10, as stated, fails: with a path for endpoint1 that does not parse, the run requests
both URLs before it reports the parse error; and when the endpoints cannot be reached it
reports the fetch error, not the parse error. -/
theorem malformed_path_reported_after_fetch :
    main exampleEnv rangeStored rangeStored "broken.yaml" =
        (.error "error extracting values from endpoint1: JSONPath parse error: unexpected token",
          ["https://left.example/posts", "https://right.example/posts"]) ∧
      main offlineEnv rangeStored rangeStored "broken.yaml" =
        (.error "error fetching data from endpoint1: HTTP request error: connection refused",
          ["https://left.example/posts"]) ∧
      exampleEnv.parse brokenPathConfig.Endpoint1.JSONPath = .error "unexpected token" :=
  ⟨rfl, rfl, rfl⟩

/-- C10, amended: `validateConfig` checks only that the URLs and the paths are not empty, and
`LoadConfig` does not consult the path parser; `compareEndpoints` requests endpoint1 first;
it reports a failed fetch of endpoint1 after that one request and a failed fetch of the
second endpoint after both requests; only when both fetches have succeeded does it report
the parse error of a malformed path, that of endpoint1 first. -/
theorem malformed_path_after_fetches (env : Env) (order1 order2 : RangeOrder)
    (config : Config) :
    (validateConfig config = none ↔
      config.Endpoint1.URL ≠ "" ∧ config.Endpoint2.URL ≠ "" ∧
        config.Endpoint1.JSONPath ≠ "" ∧ config.Endpoint2.JSONPath ≠ "") ∧
    (∀ (parse : String → Except String (JSONValue → List JSONValue)) (filename : String),
      LoadConfig ⟨parse, env.httpGetJSON, env.readFile, env.unmarshal⟩ filename =
        LoadConfig env filename) ∧
    (∀ (filename : String) (cfg : Config), LoadConfig env filename = .ok cfg →
      main env order1 order2 filename = compareEndpoints env order1 order2 cfg []) ∧
    (∃ rest, (compareEndpoints env order1 order2 config []).2 =
      config.Endpoint1.URL :: rest) ∧
    (∀ err, env.httpGetJSON 0 config.Endpoint1.URL
        (mergeHeaders config.General.Headers config.Endpoint1.Headers) = .error err →
      compareEndpoints env order1 order2 config [] =
        (.error ("error fetching data from endpoint1: " ++ err), [config.Endpoint1.URL])) ∧
    (∀ data1 err, env.httpGetJSON 0 config.Endpoint1.URL
        (mergeHeaders config.General.Headers config.Endpoint1.Headers) = .ok data1 →
      env.httpGetJSON 1 config.Endpoint2.URL
        (mergeHeaders config.General.Headers config.Endpoint2.Headers) = .error err →
      compareEndpoints env order1 order2 config [] =
        (.error ("error fetching data from endpoint2: " ++ err),
          [config.Endpoint1.URL, config.Endpoint2.URL])) ∧
    (∀ data1 data2 err, env.httpGetJSON 0 config.Endpoint1.URL
        (mergeHeaders config.General.Headers config.Endpoint1.Headers) = .ok data1 →
      env.httpGetJSON 1 config.Endpoint2.URL
        (mergeHeaders config.General.Headers config.Endpoint2.Headers) = .ok data2 →
      env.parse config.Endpoint1.JSONPath = .error err →
      compareEndpoints env order1 order2 config [] =
        (.error ("error extracting values from endpoint1: " ++
            ("JSONPath parse error: " ++ err)),
          [config.Endpoint1.URL, config.Endpoint2.URL])) ∧
    (∀ data1 data2 jp1 err, env.httpGetJSON 0 config.Endpoint1.URL
        (mergeHeaders config.General.Headers config.Endpoint1.Headers) = .ok data1 →
      env.httpGetJSON 1 config.Endpoint2.URL
        (mergeHeaders config.General.Headers config.Endpoint2.Headers) = .ok data2 →
      env.parse config.Endpoint1.JSONPath = .ok jp1 →
      env.parse config.Endpoint2.JSONPath = .error err →
      compareEndpoints env order1 order2 config [] =
        (.error ("error extracting values from endpoint2: " ++
            ("JSONPath parse error: " ++ err)),
          [config.Endpoint1.URL, config.Endpoint2.URL])) := by
  refine ⟨?_, fun _ _ => rfl, ?_, ?_, ?_, ?_, ?_, ?_⟩
  · unfold validateConfig
    split_ifs <;> simp [*]
  · intro filename cfg h
    simp only [main, h]
  · cases h1 : env.httpGetJSON 0 config.Endpoint1.URL
        (mergeHeaders config.General.Headers config.Endpoint1.Headers) with
    | error e => exact ⟨[], by simp [compareEndpoints, FetchJSON, h1]⟩
    | ok data1 =>
      refine ⟨[config.Endpoint2.URL], ?_⟩
      cases h2 : env.httpGetJSON 1 config.Endpoint2.URL
          (mergeHeaders config.General.Headers config.Endpoint2.Headers) with
      | error e => simp [compareEndpoints, FetchJSON, h1, h2]
      | ok data2 =>
        cases h3 : ExtractValues env data1 config.Endpoint1.JSONPath with
        | error e => simp [compareEndpoints, FetchJSON, h1, h2, h3]
        | ok values1 =>
          cases h4 : ExtractValues env data2 config.Endpoint2.JSONPath with
          | error e => simp [compareEndpoints, FetchJSON, h1, h2, h3, h4]
          | ok values2 => simp [compareEndpoints, FetchJSON, h1, h2, h3, h4]
  · intro err h1
    simp [compareEndpoints, FetchJSON, h1]
  · intro data1 err h1 h2
    simp [compareEndpoints, FetchJSON, h1, h2]
  · intro data1 data2 err h1 h2 hp
    simp [compareEndpoints, FetchJSON, h1, h2, ExtractValues_error env data1 _ err hp]
  · intro data1 data2 jp1 err h1 h2 hp1 hp2
    simp [compareEndpoints, FetchJSON, h1, h2, ExtractValues_ok env data1 _ jp1 hp1,
      ExtractValues_error env data2 _ err hp2]

end RestvalCompare
